import Mathlib

/-!
Verification of the github-org-mirror core: a shallow embedding of the
reconciliation engine (src/github_org_mirror/sync.py), the URL utilities
(src/github_org_mirror/utils.py), the transfer operations
(src/github_org_mirror/transfer.py) and the move watcher
(src/github_org_mirror/watcher.py), together with theorems settling the
frozen specification claims.

Conventions of the embedding:
* Python `str` values that are inspected character-by-character (URLs,
  subprocess error output) are modelled as `List Char`; `str` values used
  only as dictionary keys (organization and repository names, local paths)
  are modelled as Lean `String`.
* Python dictionaries are modelled as association lists (in insertion
  order) or, for the name-to-org index and the debounce map, as functions
  into `Option`.
* Subprocess / network replies are passed in explicitly as data, so every
  function is pure and executable.
-/

/-- Python `s.lower()` restricted to the per-character lowering that the
source relies on for its ASCII error messages. -/
def py_lower (s : List Char) : List Char := s.map Char.toLower

/-- Python `sub in s` (substring containment test). -/
def py_in (sub : List Char) : List Char → Bool
  | [] => sub.isEmpty
  | c :: rest => sub.isPrefixOf (c :: rest) || py_in sub rest

/-- Helper for Python `s.split(sep)`: locate the first occurrence of `sep`
in `s`, returning the text before it and the text after it. -/
def findSplit (sep : List Char) : List Char → Option (List Char × List Char)
  | [] => if sep.isEmpty then some ([], []) else none
  | c :: rest =>
    if sep.isPrefixOf (c :: rest) then some ([], (c :: rest).drop sep.length)
    else
      match findSplit sep rest with
      | some pr => some (c :: pr.1, pr.2)
      | none => none

/-- Fuelled worker for `splitOnSub`; the fuel is only a structural-recursion
device and `splitOnSub` always supplies enough of it. -/
def splitLoop (sep : List Char) : Nat → List Char → List (List Char)
  | 0, s => [s]
  | fuel + 1, s =>
    match findSplit sep s with
    | none => [s]
    | some pr => pr.1 :: splitLoop sep fuel pr.2

/-- Python `s.split(sep)` for a non-empty separator: split at every
non-overlapping occurrence of `sep`, scanning left to right. -/
def splitOnSub (sep s : List Char) : List (List Char) := splitLoop sep (s.length + 1) s

/-- Embeds the HTTPS half of `parse_github_remote`
(src/github_org_mirror/utils.py, lines 60-69), which Python reaches either
directly or by falling through from the SSH branch. -/
def parse_https_branch (url : List Char) : Option (List Char × List Char) :=
  if py_in "github.com/".toList url then
    let path0 := (splitOnSub "github.com/".toList url).getD 1 []
    let path := if ".git".toList.isSuffixOf path0 then path0.take (path0.length - 4) else path0
    let parts := splitOnSub "/".toList path
    if 2 ≤ parts.length then some (parts.getD 0 [], parts.getD 1 []) else none
  else none

/-- Embeds `parse_github_remote` (src/github_org_mirror/utils.py, lines
49-69): first try the SSH form `git@github.com:owner/repo.git`; when that
does not produce exactly two path components, fall through to the HTTPS
form. -/
def parse_github_remote (url : List Char) : Option (List Char × List Char) :=
  if "git@github.com:".toList.isPrefixOf url then
    let path0 := url.drop 15
    let path := if ".git".toList.isSuffixOf path0 then path0.take (path0.length - 4) else path0
    let parts := splitOnSub "/".toList path
    if parts.length = 2 then some (parts.getD 0 [], parts.getD 1 []) else parse_https_branch url
  else parse_https_branch url

/-- Embeds `build_github_url` (src/github_org_mirror/utils.py, lines 72-76). -/
def build_github_url (owner repo protocol : List Char) : List Char :=
  if protocol = "ssh".toList then
    "git@github.com:".toList ++ owner ++ "/".toList ++ repo ++ ".git".toList
  else
    "https://github.com/".toList ++ owner ++ "/".toList ++ repo ++ ".git".toList

/-- Result of a subprocess invocation (`gh` or `git`), as the source reads
it: the exit code and the captured standard-error text. -/
structure GhResult where
  returncode : Int
  stderr : List Char

/-- Embeds the decision logic of `transfer_repo`
(src/github_org_mirror/transfer.py, lines 79-111), applied to the reply of
the transfer API call: a non-zero exit whose (lowercased) error output
reports a pending transfer counts as success; a cooldown report or any
other error counts as failure. -/
def transfer_repo (result : GhResult) : Bool :=
  if result.returncode ≠ 0 then
    if py_in "transfer is already pending".toList (py_lower result.stderr) then true
    else if py_in "must wait".toList (py_lower result.stderr)
        || py_in "cooldown".toList (py_lower result.stderr) then false
    else false
  else true

/-- Worker for `wait_for_transfer`: `wait_iter polls i remaining` models the
polling loop with `remaining` time units left before the timeout; each
iteration performs the lookup `polls i` and then sleeps 2 time units. -/
def wait_iter (polls : Nat → Bool) : Nat → Nat → Bool
  | _, 0 => false
  | i, 1 => polls i
  | i, (r + 2) => if polls i then true else wait_iter polls (i + 1) r

/-- Embeds `wait_for_transfer` (src/github_org_mirror/transfer.py, lines
114-130): poll every 2 time units whether the repository is visible under
the new owner, while the elapsed time is below `timeout`; `polls i` is the
outcome of the `i`-th lookup.  Returns `false` when the timeout is
exhausted without any successful lookup. -/
def wait_for_transfer (polls : Nat → Bool) (timeout : Nat) : Bool :=
  wait_iter polls 0 timeout

/-- Embeds the decision logic of `clone_repo`
(src/github_org_mirror/transfer.py, lines 133-157) applied to the reply of
the `git clone` subprocess: a failure whose error output says the
destination already exists is treated as success. -/
def clone_repo (result : GhResult) : Bool :=
  if result.returncode ≠ 0 then
    if py_in "already exists".toList result.stderr then true else false
  else true

/-- Embeds the `Repository` dataclass (src/github_org_mirror/transfer.py,
lines 19-30). -/
structure Repository where
  name : String
  owner : String
  full_name : String
  clone_url : String
  ssh_url : String
  is_private : Bool
  is_archived : Bool
  default_branch : String
deriving DecidableEq

/-- Python `m.get(k, dflt)` on an association-list model of a dict. -/
def dict_get {α : Type} (m : List (String × α)) (k : String) (dflt : α) : α :=
  match m.find? (fun e => e.1 == k) with
  | some e => e.2
  | none => dflt

/-- Python `m[k] = v` on an association-list model of a dict: replace the
value in place when the key is present, append otherwise (Python dicts
preserve insertion order). -/
def dict_set {α : Type} (m : List (String × α)) (k : String) (v : α) : List (String × α) :=
  if m.any (fun e => e.1 == k) then m.map (fun e => if e.1 == k then (k, v) else e)
  else m ++ [(k, v)]

/-- Embeds the exclusion step of `get_github_repos`
(src/github_org_mirror/sync.py, lines 57-81): `raw` holds, per configured
organization, the list returned by `list_org_repos`; every repository whose
name is in `exclude_repos` is dropped while the per-org dict is built. -/
def get_github_repos (raw : List (String × List Repository)) (exclude_repos : List String) :
    List (String × List (String × Repository)) :=
  raw.map (fun oe =>
    (oe.1, oe.2.foldl (fun acc r => if r.name ∈ exclude_repos then acc else dict_set acc r.name r) []))

/-- Embeds the `github_locations` index built inside `find_misplaced_repos`
(src/github_org_mirror/sync.py, lines 95-99): a map from repository name to
owning organization, written by iterating the remote snapshot; a later
write overwrites an earlier one, as in a Python dict. -/
def github_locations (github_repos : List (String × List (String × Repository))) :
    String → Option String :=
  github_repos.foldl
    (fun acc oe => oe.2.foldl (fun acc2 re => fun x => if x = re.1 then some oe.1 else acc2 x) acc)
    (fun _ => none)

/-- Embeds `find_misplaced_repos` (src/github_org_mirror/sync.py, lines
84-109).  `local_repos` maps organization to (name, local path) entries;
the result lists `(repo_name, current_local_org, correct_org, local_path)`. -/
def find_misplaced_repos (local_repos : List (String × List (String × String)))
    (github_repos : List (String × List (String × Repository))) :
    List (String × String × String × String) :=
  local_repos.flatMap (fun le =>
    le.2.filterMap (fun re =>
      match github_locations github_repos re.1 with
      | some correct_org =>
        if correct_org ≠ le.1 then some (re.1, le.1, correct_org, re.2) else none
      | none => none))

/-- Embeds `find_missing_repos` (src/github_org_mirror/sync.py, lines
112-129): remote entries whose name is absent from the local map under the
same organization; the result lists `(org, repo_name, repository)`. -/
def find_missing_repos (local_repos : List (String × List (String × String)))
    (github_repos : List (String × List (String × Repository))) :
    List (String × String × Repository) :=
  github_repos.flatMap (fun ge =>
    let local_org_repos := dict_get local_repos ge.1 []
    ge.2.filterMap (fun re =>
      if re.1 ∈ local_org_repos.map Prod.fst then none else some (ge.1, re.1, re.2)))

/-- Embeds the `github_repo_names` set built inside `find_orphaned_repos`
(src/github_org_mirror/sync.py, lines 143-146); only membership in it is
ever used, so a list models the Python set. -/
def github_repo_names (github_repos : List (String × List (String × Repository))) : List String :=
  github_repos.flatMap (fun ge => ge.2.map Prod.fst)

/-- Embeds `find_orphaned_repos` (src/github_org_mirror/sync.py, lines
132-153): local entries whose name is absent from the union of all remote
names; the result lists `(org, repo_name, local_path)`. -/
def find_orphaned_repos (local_repos : List (String × List (String × String)))
    (github_repos : List (String × List (String × Repository))) :
    List (String × String × String) :=
  local_repos.flatMap (fun le =>
    le.2.filterMap (fun re =>
      if re.1 ∈ github_repo_names github_repos then none else some (le.1, re.1, re.2)))

/-- Embeds the missing-repository loop of `sync_github_to_local`
(src/github_org_mirror/sync.py, lines 210-222) with `clone_missing = true`
and `dry_run = false`: `clone_results org name` is the reply of the
`git clone` subprocess for that repository.  Returns the `cloned` and
`errors` lists that the loop accumulates. -/
def sync_missing_phase (clone_results : String → String → GhResult)
    (missing : List (String × String × Repository)) : List String × List String :=
  missing.foldl
    (fun acc me =>
      if clone_repo (clone_results me.1 me.2.1) then (acc.1 ++ [me.1 ++ "/" ++ me.2.1], acc.2)
      else (acc.1, acc.2 ++ ["Failed to clone " ++ me.1 ++ "/" ++ me.2.1]))
    ([], [])

/-- A raw filesystem move notification as `OrgMoveHandler.on_moved`
receives it (src/github_org_mirror/watcher.py): whether it is a directory
move (`DirMovedEvent`), the two paths (as segment lists), and the
observation time (`time.time()` at handling, in whole time units). -/
structure FsMoveEvent where
  is_directory_move : Bool
  src_path : List String
  dest_path : List String
  time : Nat

/-- Embeds `OrgMoveHandler._get_org_from_path`
(src/github_org_mirror/watcher.py, lines 39-48): the first path segment
relative to the watched base path, when the path lies under it. -/
def get_org_from_path (base p : List String) : Option String :=
  if base.isPrefixOf p then (p.drop base.length).head? else none

/-- Embeds `OrgMoveHandler._is_direct_child`
(src/github_org_mirror/watcher.py, lines 50-56). -/
def is_direct_child (p parent : List String) : Bool :=
  if parent.isPrefixOf p then (p.drop parent.length).length == 1 else false

/-- Embeds `OrgMoveHandler.on_moved` (src/github_org_mirror/watcher.py,
lines 58-108).  `pending_moves` models the debounce dict keyed by the
(source path, destination path) pair; `git_repo_at` is the filesystem
oracle for `is_git_repo`.  Returns the arguments of the dispatched
`_process_move` task (when one is started) and the updated debounce map. -/
def on_moved (base : List String) (git_repo_at : List String → Bool)
    (pending_moves : (List String × List String) → Option Nat)
    (ev : FsMoveEvent) :
    Option (String × String × List String × List String)
      × ((List String × List String) → Option Nat) :=
  if !ev.is_directory_move then (none, pending_moves)
  else
    match get_org_from_path base ev.src_path, get_org_from_path base ev.dest_path with
    | some src_org, some dest_org =>
      if !is_direct_child ev.src_path (base ++ [src_org]) then (none, pending_moves)
      else if !is_direct_child ev.dest_path (base ++ [dest_org]) then (none, pending_moves)
      else if src_org = dest_org then (none, pending_moves)
      else if !git_repo_at ev.dest_path then (none, pending_moves)
      else
        let move_key := (ev.src_path, ev.dest_path)
        match pending_moves move_key with
        | some prev =>
          if ev.time - prev < 2 then (none, pending_moves)
          else
            (some (src_org, dest_org, ev.src_path, ev.dest_path),
             fun k => if k = move_key then some ev.time else pending_moves k)
        | none =>
          (some (src_org, dest_org, ev.src_path, ev.dest_path),
           fun k => if k = move_key then some ev.time else pending_moves k)
    | _, _ => (none, pending_moves)

/-- Terminal outcome of one `_process_move` run. -/
inductive MoveOutcome where
  | noRemoteUrl
  | parseFailed
  | ownershipMismatch
  | transferFailed
  | timedOut
  | completed
deriving DecidableEq

/-- Observable effects of one `_process_move` run: whether the remote
transfer request was issued, whether the confirmation poll was entered,
whether `set_repo_remote_url` was invoked, whether the `on_transfer`
callback was invoked, and the terminal outcome. -/
structure MoveEffects where
  transferRequested : Bool
  waitCalled : Bool
  setUrlCalled : Bool
  callbackInvoked : Bool
  outcome : MoveOutcome
deriving DecidableEq

/-- Configuration of the watcher as `_process_move` consumes it. -/
structure WatchConfig where
  auto_update_remotes : Bool
  on_transfer_set : Bool

/-- External replies consumed by one `_process_move` run: the remote URL of
the destination working copy, the reply to the transfer API request, and
the outcomes of the confirmation-poll lookups. -/
structure MoveEnv where
  remote_url : Option (List Char)
  transfer_reply : GhResult
  polls : Nat → Bool

/-- Embeds `OrgMoveHandler._process_move` (src/github_org_mirror/watcher.py,
lines 110-157): resolve and parse the destination's remote URL, verify the
parsed owner equals the move's source organization, request the transfer,
poll for confirmation with a 120 time-unit timeout, and on confirmation
update the local remote URL (when configured) and invoke the callback. -/
def process_move (cfg : WatchConfig) (env : MoveEnv) (src_org dest_org : List Char) : MoveEffects :=
  match env.remote_url with
  | none => ⟨false, false, false, false, .noRemoteUrl⟩
  | some remote_url =>
    match parse_github_remote remote_url with
    | none => ⟨false, false, false, false, .parseFailed⟩
    | some parsed =>
      if parsed.1 ≠ src_org then ⟨false, false, false, false, .ownershipMismatch⟩
      else if transfer_repo env.transfer_reply then
        if wait_for_transfer env.polls 120 then
          ⟨true, true, cfg.auto_update_remotes, cfg.on_transfer_set, .completed⟩
        else ⟨true, true, false, false, .timedOut⟩
      else ⟨true, false, false, false, .transferFailed⟩

/-! ## Reconciliation: membership characterisations -/

/-- A name is in `github_repo_names` exactly when some remote organization
entry lists it. -/
theorem mem_github_repo_names (g : List (String × List (String × Repository))) (n : String) :
    n ∈ github_repo_names g ↔ ∃ ge ∈ g, n ∈ ge.2.map Prod.fst := by
  simp [github_repo_names, List.mem_flatMap]

/-- The inner write loop of `github_locations` never touches a name that
the organization's repository list does not contain. -/
theorem github_locations_inner_skip (o : String) (n : String) :
    ∀ (repos : List (String × Repository)) (acc : String → Option String),
      n ∉ repos.map Prod.fst →
      (repos.foldl (fun acc2 re => fun x => if x = re.1 then some o else acc2 x) acc) n = acc n := by
  intro repos
  induction repos with
  | nil => intro acc _; rfl
  | cons re rest ih =>
    intro acc hn
    simp only [List.map_cons, List.mem_cons, not_or] at hn
    rw [List.foldl_cons, ih _ hn.2]
    simp [hn.1]

/-- `github_locations` leaves a name unmapped when no remote organization
lists it. -/
theorem github_locations_eq_none (g : List (String × List (String × Repository))) (n : String)
    (h : n ∉ github_repo_names g) : github_locations g n = none := by
  suffices H : ∀ (gs : List (String × List (String × Repository))) (acc : String → Option String),
      n ∉ github_repo_names gs →
      (gs.foldl (fun acc oe =>
        oe.2.foldl (fun acc2 re => fun x => if x = re.1 then some oe.1 else acc2 x) acc) acc) n
        = acc n by
    exact H g (fun _ => none) h
  intro gs
  induction gs with
  | nil => intro acc _; rfl
  | cons ge rest ih =>
    intro acc hn
    simp only [github_repo_names, List.flatMap_cons, List.mem_append, not_or] at hn
    rw [List.foldl_cons, ih _ (by simpa [github_repo_names] using hn.2)]
    exact github_locations_inner_skip ge.1 n ge.2 acc hn.1

/-- A name that `github_locations` maps somewhere is listed by some remote
organization. -/
theorem github_locations_mem (g : List (String × List (String × Repository))) (n c : String)
    (h : github_locations g n = some c) : n ∈ github_repo_names g := by
  by_contra hn
  rw [github_locations_eq_none g n hn] at h
  exact Option.noConfusion h

/-- Membership characterisation of `find_misplaced_repos`: exactly the
local entries whose name the remote index maps to a different organization. -/
theorem mem_find_misplaced (l : List (String × List (String × String)))
    (g : List (String × List (String × Repository))) (n lo co p : String) :
    (n, lo, co, p) ∈ find_misplaced_repos l g ↔
      (∃ repos, (lo, repos) ∈ l ∧ (n, p) ∈ repos) ∧
        github_locations g n = some co ∧ co ≠ lo := by
  unfold find_misplaced_repos
  simp only [List.mem_flatMap, List.mem_filterMap]
  constructor
  · rintro ⟨le, hle, re, hre, hf⟩
    split at hf
    next c hloc =>
      split at hf
      next hc =>
        have h1 : re.1 = n ∧ le.1 = lo ∧ c = co ∧ re.2 = p := by
          simpa [Prod.ext_iff] using hf
        obtain ⟨e1, e2, e3, e4⟩ := h1
        refine ⟨⟨le.2, ?_, ?_⟩, ?_, ?_⟩
        · rw [← e2]; simpa using hle
        · rw [← e1, ← e4]; simpa using hre
        · rw [e1, e3] at hloc; exact hloc
        · rw [← e3, ← e2]; exact hc
      next hc => exact absurd hf (by simp)
    next hloc => exact absurd hf (by simp)
  · rintro ⟨⟨repos, hrep, hre⟩, hloc, hne⟩
    refine ⟨(lo, repos), hrep, (n, p), hre, ?_⟩
    simp only [hloc]
    rw [if_pos hne]

/-- Membership characterisation of `find_missing_repos`: exactly the remote
entries whose name is absent from the local map under the same organization. -/
theorem mem_find_missing (l : List (String × List (String × String)))
    (g : List (String × List (String × Repository))) (org n : String) (r : Repository) :
    (org, n, r) ∈ find_missing_repos l g ↔
      (∃ repos, (org, repos) ∈ g ∧ (n, r) ∈ repos) ∧
        n ∉ (dict_get l org []).map Prod.fst := by
  unfold find_missing_repos
  simp only [List.mem_flatMap, List.mem_filterMap]
  constructor
  · rintro ⟨ge, hge, re, hre, hf⟩
    by_cases hmem : re.1 ∈ (dict_get l ge.1 []).map Prod.fst
    · rw [if_pos hmem] at hf; exact absurd hf (by simp)
    · rw [if_neg hmem] at hf
      have h1 : ge.1 = org ∧ re.1 = n ∧ re.2 = r := by
        simpa [Prod.ext_iff] using hf
      obtain ⟨e1, e2, e3⟩ := h1
      refine ⟨⟨ge.2, ?_, ?_⟩, ?_⟩
      · rw [← e1]; simpa using hge
      · rw [← e2, ← e3]; simpa using hre
      · rw [← e2, ← e1]; exact hmem
  · rintro ⟨⟨repos, hrep, hre⟩, hn⟩
    refine ⟨(org, repos), hrep, (n, r), hre, ?_⟩
    simp only []
    rw [if_neg hn]

/-- Membership characterisation of `find_orphaned_repos`: exactly the local
entries whose name no tracked remote organization lists. -/
theorem mem_find_orphaned (l : List (String × List (String × String)))
    (g : List (String × List (String × Repository))) (org n p : String) :
    (org, n, p) ∈ find_orphaned_repos l g ↔
      (∃ repos, (org, repos) ∈ l ∧ (n, p) ∈ repos) ∧
        n ∉ github_repo_names g := by
  unfold find_orphaned_repos
  simp only [List.mem_flatMap, List.mem_filterMap]
  constructor
  · rintro ⟨le, hle, re, hre, hf⟩
    by_cases hmem : re.1 ∈ github_repo_names g
    · rw [if_pos hmem] at hf; exact absurd hf (by simp)
    · rw [if_neg hmem] at hf
      have h1 : le.1 = org ∧ re.1 = n ∧ re.2 = p := by
        simpa [Prod.ext_iff] using hf
      obtain ⟨e1, e2, e3⟩ := h1
      refine ⟨⟨le.2, ?_, ?_⟩, ?_⟩
      · rw [← e1]; simpa using hle
      · rw [← e2, ← e3]; simpa using hre
      · rw [← e2]; exact hmem
  · rintro ⟨⟨repos, hrep, hre⟩, hn⟩
    refine ⟨(org, repos), hrep, (n, p), hre, ?_⟩
    simp only []
    rw [if_neg hn]

/-- Every name reported misplaced is listed by some remote organization. -/
theorem misplaced_name_mem (l : List (String × List (String × String)))
    (g : List (String × List (String × Repository)))
    (e : String × String × String × String) (he : e ∈ find_misplaced_repos l g) :
    e.1 ∈ github_repo_names g := by
  obtain ⟨n, lo, co, p⟩ := e
  rw [mem_find_misplaced] at he
  exact github_locations_mem g n co he.2.1

/-- Every name reported missing is listed by some remote organization. -/
theorem missing_name_mem (l : List (String × List (String × String)))
    (g : List (String × List (String × Repository)))
    (e : String × String × Repository) (he : e ∈ find_missing_repos l g) :
    e.2.1 ∈ github_repo_names g := by
  obtain ⟨org, n, r⟩ := e
  rw [mem_find_missing] at he
  obtain ⟨⟨repos, hrep, hre⟩, _⟩ := he
  rw [mem_github_repo_names]
  exact ⟨(org, repos), hrep, by simpa using List.mem_map_of_mem Prod.fst hre⟩

/-- Every name reported orphaned is listed by no remote organization. -/
theorem orphaned_name_not_mem (l : List (String × List (String × String)))
    (g : List (String × List (String × Repository)))
    (e : String × String × String) (he : e ∈ find_orphaned_repos l g) :
    e.2.1 ∉ github_repo_names g := by
  obtain ⟨org, n, p⟩ := e
  rw [mem_find_orphaned] at he
  exact he.2

/-! ## Reference definitions written from the specification text -/

/-- Reference predicate for the spec sentence "for every local entry, if its
name is in the index and the indexed org differs from the local org, emit
Misplaced": the local entry (name, localOrg, path) whose name the remote
name-to-owning-org index maps to a different owning org. -/
def spec_misplaced (l : List (String × List (String × String)))
    (g : List (String × List (String × Repository))) (n lo co p : String) : Prop :=
  (∃ repos, (lo, repos) ∈ l ∧ (n, p) ∈ repos) ∧
    github_locations g n = some co ∧ co ≠ lo

/-- Reference predicate for the spec sentence "for every remote entry, if
its name is absent from the local map under the same org, emit Missing". -/
def spec_missing (l : List (String × List (String × String)))
    (g : List (String × List (String × Repository))) (org n : String) (r : Repository) : Prop :=
  (∃ repos, (org, repos) ∈ g ∧ (n, r) ∈ repos) ∧
    n ∉ (dict_get l org []).map Prod.fst

/-- Reference predicate for the spec sentence "for every local entry, if
its name is absent from the union of all remote names, emit Orphaned". -/
def spec_orphaned (l : List (String × List (String × String)))
    (g : List (String × List (String × Repository))) (org n p : String) : Prop :=
  (∃ repos, (org, repos) ∈ l ∧ (n, p) ∈ repos) ∧ n ∉ github_repo_names g

/-! ## Concrete sample snapshots used by witnesses and counterexamples -/

/-- A concrete remote repository descriptor for the sample snapshots. -/
def sampleRepo : Repository :=
  ⟨"tools", "other", "other/tools", "https://github.com/other/tools.git",
   "git@github.com:other/tools.git", false, false, "main"⟩

/-- A local snapshot holding `tools` under the `acme` organization folder. -/
def sampleLocal : List (String × List (String × String)) :=
  [("acme", [("tools", "/repos/acme/tools")])]

/-- A remote snapshot holding `tools` under the `other` organization. -/
def sampleGithub : List (String × List (String × Repository)) :=
  [("other", [("tools", sampleRepo)])]

/-! ## Claim C1 -/

/-- C1 counterexample: on the snapshots `sampleLocal` / `sampleGithub` the
name `tools` is reported both Misplaced (it lives under `acme` locally but
belongs to `other`) and Missing (no local entry for `tools` exists under
`other`), so the three finding sets are not pairwise disjoint on names as
the claim states. -/
theorem claim_C1_counterexample :
    "tools" ∈ (find_misplaced_repos sampleLocal sampleGithub).map (fun e => e.1) ∧
    "tools" ∈ (find_missing_repos sampleLocal sampleGithub).map (fun e => e.2.1) := by
  decide

/-- C1 (amended): the Misplaced names and the Missing names are each
disjoint from the Orphaned names, for every pair of snapshots; a name
reported Misplaced may however also be reported Missing (under the remote
organization that owns it) when no local copy exists there. -/
theorem claim_C1_theorem (l : List (String × List (String × String)))
    (g : List (String × List (String × Repository))) :
    List.Disjoint ((find_misplaced_repos l g).map (fun e => e.1))
      ((find_orphaned_repos l g).map (fun e => e.2.1)) ∧
    List.Disjoint ((find_missing_repos l g).map (fun e => e.2.1))
      ((find_orphaned_repos l g).map (fun e => e.2.1)) := by
  constructor
  · intro a hma hoa
    obtain ⟨e, he, hee⟩ := List.mem_map.mp hma
    obtain ⟨e', he', hee'⟩ := List.mem_map.mp hoa
    have h1 := misplaced_name_mem l g e he
    have h2 := orphaned_name_not_mem l g e' he'
    rw [hee] at h1
    rw [hee'] at h2
    exact h2 h1
  · intro a hma hoa
    obtain ⟨e, he, hee⟩ := List.mem_map.mp hma
    obtain ⟨e', he', hee'⟩ := List.mem_map.mp hoa
    have h1 := missing_name_mem l g e he
    have h2 := orphaned_name_not_mem l g e' he'
    rw [hee] at h1
    rw [hee'] at h2
    exact h2 h1

/-- C1 witness: the amended disjointness at the concrete sample snapshots. -/
theorem claim_C1_witness :
    List.Disjoint ((find_misplaced_repos sampleLocal sampleGithub).map (fun e => e.1))
      ((find_orphaned_repos sampleLocal sampleGithub).map (fun e => e.2.1)) ∧
    List.Disjoint ((find_missing_repos sampleLocal sampleGithub).map (fun e => e.2.1))
      ((find_orphaned_repos sampleLocal sampleGithub).map (fun e => e.2.1)) :=
  claim_C1_theorem sampleLocal sampleGithub

/-! ## Claim C2 -/

/-- C2: the three finding computations agree with the reference predicates
written from the spec's algorithm: Misplaced is exactly the set of local
entries whose name the remote name-to-owning-org index maps to a different
org, Missing is exactly the set of remote entries whose name is absent from
the local map under the same org, and Orphaned is exactly the set of local
entries whose name is absent from the union of all remote names. -/
theorem claim_C2_theorem (l : List (String × List (String × String)))
    (g : List (String × List (String × Repository)))
    (n lo co p org m lorg n2 pth : String) (r : Repository) :
    ((n, lo, co, p) ∈ find_misplaced_repos l g ↔ spec_misplaced l g n lo co p) ∧
    ((org, m, r) ∈ find_missing_repos l g ↔ spec_missing l g org m r) ∧
    ((lorg, n2, pth) ∈ find_orphaned_repos l g ↔ spec_orphaned l g lorg n2 pth) :=
  ⟨mem_find_misplaced l g n lo co p, mem_find_missing l g org m r,
   mem_find_orphaned l g lorg n2 pth⟩

/-- C2 witness: the refinement equivalences at the concrete sample
snapshots and concrete finding tuples. -/
theorem claim_C2_witness :
    (("tools", "acme", "other", "/repos/acme/tools") ∈ find_misplaced_repos sampleLocal sampleGithub
       ↔ spec_misplaced sampleLocal sampleGithub "tools" "acme" "other" "/repos/acme/tools") ∧
    (("other", "tools", sampleRepo) ∈ find_missing_repos sampleLocal sampleGithub
       ↔ spec_missing sampleLocal sampleGithub "other" "tools" sampleRepo) ∧
    (("acme", "legacy", "/repos/acme/legacy") ∈ find_orphaned_repos sampleLocal sampleGithub
       ↔ spec_orphaned sampleLocal sampleGithub "acme" "legacy" "/repos/acme/legacy") :=
  claim_C2_theorem sampleLocal sampleGithub "tools" "acme" "other" "/repos/acme/tools"
    "other" "tools" "acme" "legacy" "/repos/acme/legacy" sampleRepo

/-! ## Claim C3 -/

/-- Every key of `dict_set m k v` is a key of `m` or is `k` itself. -/
theorem dict_set_keys {α : Type} (m : List (String × α)) (k : String) (v : α) (x : String)
    (hx : x ∈ (dict_set m k v).map Prod.fst) : x ∈ m.map Prod.fst ∨ x = k := by
  unfold dict_set at hx
  split at hx
  · simp only [List.map_map, List.mem_map, Function.comp] at hx
    obtain ⟨e, he, heq⟩ := hx
    by_cases hk : e.1 == k
    · rw [if_pos hk] at heq
      right; exact heq.symm
    · rw [if_neg hk] at heq
      left; exact List.mem_map.mpr ⟨e, he, heq⟩
  · simp only [List.map_append, List.mem_append, List.map_cons, List.map_nil,
      List.mem_cons, List.not_mem_nil, or_false] at hx
    rcases hx with h | h
    · left; exact h
    · right; exact h

/-- The per-organization dict built by `get_github_repos` never acquires a
key from the exclusion list. -/
theorem exclude_fold_keys (exclude : List String) :
    ∀ (repos : List Repository) (acc : List (String × Repository)),
      (∀ k ∈ acc.map Prod.fst, k ∉ exclude) →
      ∀ k ∈ (repos.foldl
          (fun acc r => if r.name ∈ exclude then acc else dict_set acc r.name r) acc).map Prod.fst,
        k ∉ exclude := by
  intro repos
  induction repos with
  | nil => intro acc hacc; exact hacc
  | cons r rest ih =>
    intro acc hacc
    rw [List.foldl_cons]
    apply ih
    intro k hk
    by_cases hr : r.name ∈ exclude
    · rw [if_pos hr] at hk; exact hacc k hk
    · rw [if_neg hr] at hk
      rcases dict_set_keys acc r.name r k hk with h | h
      · exact hacc k h
      · rw [h]; exact hr

/-- An excluded name never appears among the remote names that
`get_github_repos` reports. -/
theorem get_github_repos_excluded (raw : List (String × List Repository))
    (exclude : List String) (n : String) (hx : n ∈ exclude) :
    n ∉ github_repo_names (get_github_repos raw exclude) := by
  intro hmem
  rw [mem_github_repo_names] at hmem
  obtain ⟨ge, hge, hn⟩ := hmem
  unfold get_github_repos at hge
  obtain ⟨oe, _, rfl⟩ := List.mem_map.mp hge
  exact exclude_fold_keys exclude oe.2 [] (by simp) n hn hx

/-- C3: a repository name in the exclude set never appears in the Missing
findings or the Misplaced findings computed against the filtered remote
snapshot that `get_github_repos` produces, but a local entry with an
excluded name is still reported in the Orphaned findings. -/
theorem claim_C3_theorem (local_repos : List (String × List (String × String)))
    (raw : List (String × List Repository)) (exclude : List String) (n : String)
    (hx : n ∈ exclude) :
    n ∉ (find_missing_repos local_repos (get_github_repos raw exclude)).map (fun e => e.2.1) ∧
    n ∉ (find_misplaced_repos local_repos (get_github_repos raw exclude)).map (fun e => e.1) ∧
    ∀ lorg repos pth, (lorg, repos) ∈ local_repos → (n, pth) ∈ repos →
      (lorg, n, pth) ∈ find_orphaned_repos local_repos (get_github_repos raw exclude) := by
  have hnot := get_github_repos_excluded raw exclude n hx
  refine ⟨?_, ?_, ?_⟩
  · intro hmem
    obtain ⟨e, he, hee⟩ := List.mem_map.mp hmem
    exact hnot (hee ▸ missing_name_mem _ _ e he)
  · intro hmem
    obtain ⟨e, he, hee⟩ := List.mem_map.mp hmem
    exact hnot (hee ▸ misplaced_name_mem _ _ e he)
  · intro lorg repos pth h1 h2
    exact (mem_find_orphaned _ _ lorg n pth).mpr ⟨⟨repos, h1, h2⟩, hnot⟩

/-- C3 witness: at the concrete snapshots, the excluded name `tools` is
absent from Missing and Misplaced but its local entry is orphaned. -/
theorem claim_C3_witness :
    "tools" ∉ (find_missing_repos sampleLocal
        (get_github_repos [("other", [sampleRepo])] ["tools"])).map (fun e => e.2.1) ∧
    "tools" ∉ (find_misplaced_repos sampleLocal
        (get_github_repos [("other", [sampleRepo])] ["tools"])).map (fun e => e.1) ∧
    ∀ lorg repos pth, (lorg, repos) ∈ sampleLocal → ("tools", pth) ∈ repos →
      (lorg, "tools", pth) ∈ find_orphaned_repos sampleLocal
        (get_github_repos [("other", [sampleRepo])] ["tools"]) :=
  claim_C3_theorem sampleLocal [("other", [sampleRepo])] ["tools"] "tools" (by decide)

/-! ## Transfer workflow: C4, C5, C7 -/

/-- The polling loop returns `false` when every lookup made inside the
remaining time budget fails. -/
theorem wait_iter_eq_false (polls : Nat → Bool) :
    ∀ r i, (∀ j, i ≤ j → 2 * (j - i) < r → polls j = false) → wait_iter polls i r = false := by
  intro r
  induction r using Nat.strong_induction_on with
  | _ r ih =>
    match r with
    | 0 => intro i _; rfl
    | 1 =>
      intro i h
      have h0 : polls i = false := h i (Nat.le_refl i) (by omega)
      simpa [wait_iter] using h0
    | r + 2 =>
      intro i h
      have h0 : polls i = false := h i (Nat.le_refl i) (by omega)
      have hr : wait_iter polls (i + 1) r = false := by
        apply ih r (by omega)
        intro j hj hlt
        exact h j (by omega) (by omega)
      simp [wait_iter, h0, hr]

/-- C4: for every move whose transfer request succeeded, if every
confirmation lookup inside the 120 time-unit budget fails, the workflow
terminates without invoking `set_repo_remote_url` and without invoking the
`on_transfer` callback: the local remote URL is left unmodified. -/
theorem claim_C4_theorem (cfg : WatchConfig) (env : MoveEnv) (src_org dest_org : List Char)
    (h1 : transfer_repo env.transfer_reply = true)
    (h2 : ∀ j, 2 * j < 120 → env.polls j = false) :
    (process_move cfg env src_org dest_org).setUrlCalled = false ∧
    (process_move cfg env src_org dest_org).callbackInvoked = false := by
  have hw : wait_for_transfer env.polls 120 = false := by
    unfold wait_for_transfer
    apply wait_iter_eq_false
    intro j hj hlt
    exact h2 j (by omega)
  unfold process_move
  split
  · exact ⟨rfl, rfl⟩
  next url =>
    split
    · exact ⟨rfl, rfl⟩
    next parsed =>
      split
      · exact ⟨rfl, rfl⟩
      · simp [h1, hw]

/-- Environment of a move whose transfer request succeeds but whose
confirmation poll never finds the repository. -/
def sampleEnvTimeout : MoveEnv :=
  ⟨some ("git@github.com:acme/app.git".toList), ⟨0, []⟩, fun _ => false⟩

/-- C4 witness: the timeout-safety conclusion at a concrete environment. -/
theorem claim_C4_witness :
    (process_move ⟨true, true⟩ sampleEnvTimeout ("acme".toList) ("other".toList)).setUrlCalled
      = false ∧
    (process_move ⟨true, true⟩ sampleEnvTimeout ("acme".toList) ("other".toList)).callbackInvoked
      = false :=
  claim_C4_theorem ⟨true, true⟩ sampleEnvTimeout ("acme".toList) ("other".toList)
    (by decide) (fun _ _ => rfl)

/-- C5: a transfer reply that reports "transfer is already pending" is
treated as success (`transfer_repo` returns `true`) and the workflow
advances to the confirmation-polling phase instead of a failure state. -/
theorem claim_C5_theorem (cfg : WatchConfig) (env : MoveEnv)
    (src_org dest_org repo url : List Char)
    (h1 : env.transfer_reply.returncode ≠ 0)
    (h2 : py_in "transfer is already pending".toList (py_lower env.transfer_reply.stderr) = true)
    (h3 : env.remote_url = some url)
    (h4 : parse_github_remote url = some (src_org, repo)) :
    transfer_repo env.transfer_reply = true ∧
    (process_move cfg env src_org dest_org).waitCalled = true := by
  have htr : transfer_repo env.transfer_reply = true := by
    unfold transfer_repo
    rw [if_pos h1, h2]
    simp
  refine ⟨htr, ?_⟩
  unfold process_move
  simp only [h3, h4]
  rw [if_neg (show ¬ ((src_org, repo).1 ≠ src_org) by simp)]
  rw [if_pos htr]
  split <;> rfl

/-- Environment of a move whose transfer request is answered with a
"transfer is already pending" error. -/
def sampleEnvPending : MoveEnv :=
  ⟨some ("git@github.com:acme/app.git".toList),
   ⟨1, "A Transfer is already pending".toList⟩, fun _ => false⟩

/-- C5 witness: the already-pending reply at a concrete environment. -/
theorem claim_C5_witness :
    transfer_repo sampleEnvPending.transfer_reply = true ∧
    (process_move ⟨true, true⟩ sampleEnvPending ("acme".toList) ("other".toList)).waitCalled
      = true :=
  claim_C5_theorem ⟨true, true⟩ sampleEnvPending ("acme".toList) ("other".toList)
    ("app".toList) ("git@github.com:acme/app.git".toList)
    (by decide) (by decide) rfl (by decide)

/-- C7: when the owner parsed from the destination's remote URL differs
from the move's source organization, the workflow terminates with an
ownership-mismatch outcome and the transfer request is never issued. -/
theorem claim_C7_theorem (cfg : WatchConfig) (env : MoveEnv) (src_org dest_org : List Char)
    (url owner repo : List Char)
    (h1 : env.remote_url = some url)
    (h2 : parse_github_remote url = some (owner, repo))
    (h3 : owner ≠ src_org) :
    (process_move cfg env src_org dest_org).outcome = MoveOutcome.ownershipMismatch ∧
    (process_move cfg env src_org dest_org).transferRequested = false := by
  unfold process_move
  simp only [h1, h2]
  rw [if_pos (show ((owner, repo).1 ≠ src_org) from h3)]
  exact ⟨rfl, rfl⟩

/-- C7 witness: an ownership mismatch at a concrete environment (the remote
URL records owner `acme` but the folder was moved out of `other`). -/
theorem claim_C7_witness :
    (process_move ⟨true, true⟩ sampleEnvTimeout ("other".toList) ("third".toList)).outcome
      = MoveOutcome.ownershipMismatch ∧
    (process_move ⟨true, true⟩ sampleEnvTimeout ("other".toList) ("third".toList)).transferRequested
      = false :=
  claim_C7_theorem ⟨true, true⟩ sampleEnvTimeout ("other".toList) ("third".toList)
    ("git@github.com:acme/app.git".toList) ("acme".toList) ("app".toList)
    rfl (by decide) (by decide)

/-! ## Move detection: C9 and C6 -/

/-- C9: a move notification whose source and destination resolve to the
same top-level organization segment under the watched base path never
dispatches a handling task, so the per-move transfer workflow is never
started for it. -/
theorem claim_C9_theorem (base : List String) (git_repo_at : List String → Bool)
    (pending : (List String × List String) → Option Nat) (ev : FsMoveEvent) (o : String)
    (h1 : get_org_from_path base ev.src_path = some o)
    (h2 : get_org_from_path base ev.dest_path = some o) :
    (on_moved base git_repo_at pending ev).1 = none := by
  unfold on_moved
  cases hd : ev.is_directory_move
  · simp [hd]
  · simp only [hd, Bool.not_true, Bool.false_eq_true, if_false, h1, h2]
    split
    · rfl
    · split
      · rfl
      · simp

/-- C9 witness: a rename inside the `acme` organization folder dispatches
nothing. -/
theorem claim_C9_witness :
    (on_moved ["base"] (fun _ => true) (fun _ => none)
      ⟨true, ["base", "acme", "app"], ["base", "acme", "app2"], 5⟩).1 = none :=
  claim_C9_theorem ["base"] (fun _ => true) (fun _ => none)
    ⟨true, ["base", "acme", "app"], ["base", "acme", "app2"], 5⟩ "acme"
    (by decide) (by decide)

/-- When an event passes every filter, `on_moved` reduces to the debounce
decision on the (source path, destination path) key. -/
theorem on_moved_filters_pass (base : List String) (git_repo_at : List String → Bool)
    (pending : (List String × List String) → Option Nat) (ev : FsMoveEvent)
    (sorg dorg : String)
    (hd : ev.is_directory_move = true)
    (hso : get_org_from_path base ev.src_path = some sorg)
    (hdo : get_org_from_path base ev.dest_path = some dorg)
    (hc1 : is_direct_child ev.src_path (base ++ [sorg]) = true)
    (hc2 : is_direct_child ev.dest_path (base ++ [dorg]) = true)
    (hne : sorg ≠ dorg)
    (hgit : git_repo_at ev.dest_path = true) :
    on_moved base git_repo_at pending ev =
      match pending (ev.src_path, ev.dest_path) with
      | some prev =>
        if ev.time - prev < 2 then (none, pending)
        else (some (sorg, dorg, ev.src_path, ev.dest_path),
              fun k => if k = (ev.src_path, ev.dest_path) then some ev.time else pending k)
      | none =>
        (some (sorg, dorg, ev.src_path, ev.dest_path),
         fun k => if k = (ev.src_path, ev.dest_path) then some ev.time else pending k) := by
  unfold on_moved
  simp [hd, hso, hdo, hc1, hc2, hne, hgit]

/-- C6: with the debounce map initially not holding the move's key, a first
filter-passing notification dispatches a handling task and records its
timestamp; a second notification with the identical (source, destination)
pair is suppressed when it arrives less than 2 time units later, and
dispatches again when it arrives at least 2 time units later. -/
theorem claim_C6_theorem (base : List String) (git_repo_at : List String → Bool)
    (pending : (List String × List String) → Option Nat) (ev1 ev2 : FsMoveEvent)
    (sorg dorg : String)
    (hd1 : ev1.is_directory_move = true) (hd2 : ev2.is_directory_move = true)
    (hs : ev2.src_path = ev1.src_path) (hdp : ev2.dest_path = ev1.dest_path)
    (hkey : pending (ev1.src_path, ev1.dest_path) = none)
    (hso : get_org_from_path base ev1.src_path = some sorg)
    (hdo : get_org_from_path base ev1.dest_path = some dorg)
    (hc1 : is_direct_child ev1.src_path (base ++ [sorg]) = true)
    (hc2 : is_direct_child ev1.dest_path (base ++ [dorg]) = true)
    (hne : sorg ≠ dorg)
    (hgit : git_repo_at ev1.dest_path = true) :
    (on_moved base git_repo_at pending ev1).1 = some (sorg, dorg, ev1.src_path, ev1.dest_path) ∧
    (ev2.time - ev1.time < 2 →
      (on_moved base git_repo_at (on_moved base git_repo_at pending ev1).2 ev2).1 = none) ∧
    (2 ≤ ev2.time - ev1.time →
      (on_moved base git_repo_at (on_moved base git_repo_at pending ev1).2 ev2).1 =
        some (sorg, dorg, ev1.src_path, ev1.dest_path)) := by
  have he1 := on_moved_filters_pass base git_repo_at pending ev1 sorg dorg
    hd1 hso hdo hc1 hc2 hne hgit
  rw [hkey] at he1
  have hp2 : (on_moved base git_repo_at pending ev1).2
      = fun k => if k = (ev1.src_path, ev1.dest_path) then some ev1.time else pending k := by
    rw [he1]
  have he2 := on_moved_filters_pass base git_repo_at
    ((on_moved base git_repo_at pending ev1).2) ev2 sorg dorg hd2
    (by rw [hs]; exact hso) (by rw [hdp]; exact hdo)
    (by rw [hs]; exact hc1) (by rw [hdp]; exact hc2) hne (by rw [hdp]; exact hgit)
  have hlook : (on_moved base git_repo_at pending ev1).2 (ev2.src_path, ev2.dest_path)
      = some ev1.time := by
    rw [hp2, hs, hdp]
    simp
  rw [hlook] at he2
  refine ⟨by rw [he1], ?_, ?_⟩
  · intro hlt
    rw [he2]
    simp [hlt]
  · intro hge
    rw [he2]
    have hnlt : ¬ (ev2.time - ev1.time < 2) := by omega
    simp [hnlt, hs, hdp]

/-- First sample notification: `app` moved from `acme` to `other` at time 10. -/
def sampleMove1 : FsMoveEvent := ⟨true, ["base", "acme", "app"], ["base", "other", "app"], 10⟩

/-- Second sample notification: the identical move observed again at time 11. -/
def sampleMove2 : FsMoveEvent := ⟨true, ["base", "acme", "app"], ["base", "other", "app"], 11⟩

/-- C6 witness: the debounce behaviour at two concrete notifications one
time unit apart. -/
theorem claim_C6_witness :
    (on_moved ["base"] (fun _ => true) (fun _ => none) sampleMove1).1
      = some ("acme", "other", sampleMove1.src_path, sampleMove1.dest_path) ∧
    (sampleMove2.time - sampleMove1.time < 2 →
      (on_moved ["base"] (fun _ => true)
        (on_moved ["base"] (fun _ => true) (fun _ => none) sampleMove1).2 sampleMove2).1 = none) ∧
    (2 ≤ sampleMove2.time - sampleMove1.time →
      (on_moved ["base"] (fun _ => true)
        (on_moved ["base"] (fun _ => true) (fun _ => none) sampleMove1).2 sampleMove2).1 =
        some ("acme", "other", sampleMove1.src_path, sampleMove1.dest_path)) :=
  claim_C6_theorem ["base"] (fun _ => true) (fun _ => none) sampleMove1 sampleMove2
    "acme" "other" rfl rfl rfl rfl rfl (by decide) (by decide) (by decide) (by decide)
    (by decide) rfl

/-! ## Sync apply: C8 -/

/-- String append cancels on the left. -/
theorem string_append_left_cancel (a b c : String) (h : a ++ b = a ++ c) : b = c := by
  apply String.ext
  have hd := congrArg String.data h
  simp only [String.data_append] at hd
  exact List.append_cancel_left hd

/-- The missing-repository loop splits the findings into the successful
clones and the per-repository errors, in order. -/
theorem sync_missing_loop (clone_results : String → String → GhResult) :
    ∀ (missing : List (String × String × Repository)) (c0 e0 : List String),
      missing.foldl
        (fun acc me =>
          if clone_repo (clone_results me.1 me.2.1) then (acc.1 ++ [me.1 ++ "/" ++ me.2.1], acc.2)
          else (acc.1, acc.2 ++ ["Failed to clone " ++ me.1 ++ "/" ++ me.2.1]))
        (c0, e0) =
      (c0 ++ (missing.filter (fun me => clone_repo (clone_results me.1 me.2.1))).map
          (fun me => me.1 ++ "/" ++ me.2.1),
       e0 ++ (missing.filter (fun me => !clone_repo (clone_results me.1 me.2.1))).map
          (fun me => "Failed to clone " ++ me.1 ++ "/" ++ me.2.1)) := by
  intro missing
  induction missing with
  | nil => intro c0 e0; simp
  | cons me rest ih =>
    intro c0 e0
    rw [List.foldl_cons]
    cases hcl : clone_repo (clone_results me.1 me.2.1)
    · simp only [hcl, Bool.false_eq_true, if_false]
      rw [ih]
      simp [List.filter_cons, hcl, List.append_assoc]
    · simp only [hcl, if_true]
      rw [ih]
      simp [List.filter_cons, hcl, List.append_assoc]

/-- C8: in the missing-handling loop (clone_missing on, dry_run off), a
finding whose clone fails because the destination already exists is
recorded among the cloned repositories and produces no error entry; a
finding with any other clone failure produces an error entry for that
repository only and is not recorded as cloned; and every finding is
processed (one record per finding), so no failure aborts the loop. -/
theorem claim_C8_theorem (clone_results : String → String → GhResult)
    (missing : List (String × String × Repository)) (org name : String) (r : Repository)
    (hmem : (org, name, r) ∈ missing)
    (hnd : (missing.map (fun me => me.1 ++ "/" ++ me.2.1)).Nodup) :
    (((clone_results org name).returncode ≠ 0 ∧
        py_in "already exists".toList (clone_results org name).stderr = true) →
      (org ++ "/" ++ name) ∈ (sync_missing_phase clone_results missing).1 ∧
      ("Failed to clone " ++ org ++ "/" ++ name) ∉ (sync_missing_phase clone_results missing).2) ∧
    (((clone_results org name).returncode ≠ 0 ∧
        py_in "already exists".toList (clone_results org name).stderr = false) →
      ("Failed to clone " ++ org ++ "/" ++ name) ∈ (sync_missing_phase clone_results missing).2 ∧
      (org ++ "/" ++ name) ∉ (sync_missing_phase clone_results missing).1) ∧
    (sync_missing_phase clone_results missing).1.length +
      (sync_missing_phase clone_results missing).2.length = missing.length := by
  have heq : sync_missing_phase clone_results missing =
      ((missing.filter (fun me => clone_repo (clone_results me.1 me.2.1))).map
          (fun me => me.1 ++ "/" ++ me.2.1),
       (missing.filter (fun me => !clone_repo (clone_results me.1 me.2.1))).map
          (fun me => "Failed to clone " ++ me.1 ++ "/" ++ me.2.1)) := by
    unfold sync_missing_phase
    rw [sync_missing_loop clone_results missing [] []]
    simp
  refine ⟨?_, ?_, ?_⟩
  · rintro ⟨ha, hb⟩
    have hcl : clone_repo (clone_results org name) = true := by
      unfold clone_repo
      rw [if_pos ha, hb]
      simp
    constructor
    · rw [heq]
      exact List.mem_map.mpr ⟨(org, name, r), List.mem_filter.mpr ⟨hmem, hcl⟩, rfl⟩
    · rw [heq]
      intro hbad
      obtain ⟨me2, hme2, heq2⟩ := List.mem_map.mp hbad
      have hkey : me2.1 ++ "/" ++ me2.2.1 = org ++ "/" ++ name := by
        have hd := congrArg String.data heq2
        simp only [String.data_append, List.append_assoc] at hd
        have hd2 := List.append_cancel_left hd
        apply String.ext
        simp only [String.data_append, List.append_assoc]
        exact hd2
      obtain ⟨hmem2, hnp⟩ := List.mem_filter.mp hme2
      have hsame : me2 = (org, name, r) :=
        List.inj_on_of_nodup_map hnd hmem2 hmem hkey
      rw [hsame] at hnp
      rw [hcl] at hnp
      simp at hnp
  · rintro ⟨ha, hb⟩
    have hcl : clone_repo (clone_results org name) = false := by
      unfold clone_repo
      rw [if_pos ha, hb]
      simp
    constructor
    · rw [heq]
      refine List.mem_map.mpr ⟨(org, name, r), List.mem_filter.mpr ⟨hmem, ?_⟩, rfl⟩
      rw [hcl]
      rfl
    · rw [heq]
      intro hbad
      obtain ⟨me2, hme2, heq2⟩ := List.mem_map.mp hbad
      obtain ⟨hmem2, hnp⟩ := List.mem_filter.mp hme2
      have hsame : me2 = (org, name, r) :=
        List.inj_on_of_nodup_map hnd hmem2 hmem heq2
      rw [hsame] at hnp
      rw [hcl] at hnp
      simp at hnp
  · rw [heq]
    simp only [List.length_map]
    have := List.length_eq_length_filter_add
      (l := missing) (fun me => clone_repo (clone_results me.1 me.2.1))
    omega

/-- Concrete clone replies: every clone attempt fails because the
destination already exists. -/
def sampleCloneResults : String → String → GhResult :=
  fun _ _ => ⟨128, "fatal: destination path already exists and is not an empty directory".toList⟩

/-- Concrete list with a single Missing finding. -/
def sampleMissing : List (String × String × Repository) := [("other", "tools", sampleRepo)]

/-- C8 witness: the apply-loop guarantees at a concrete Missing finding
whose clone fails with "already exists". -/
theorem claim_C8_witness :
    (((sampleCloneResults "other" "tools").returncode ≠ 0 ∧
        py_in "already exists".toList (sampleCloneResults "other" "tools").stderr = true) →
      ("other" ++ "/" ++ "tools") ∈ (sync_missing_phase sampleCloneResults sampleMissing).1 ∧
      ("Failed to clone " ++ "other" ++ "/" ++ "tools")
        ∉ (sync_missing_phase sampleCloneResults sampleMissing).2) ∧
    (((sampleCloneResults "other" "tools").returncode ≠ 0 ∧
        py_in "already exists".toList (sampleCloneResults "other" "tools").stderr = false) →
      ("Failed to clone " ++ "other" ++ "/" ++ "tools")
        ∈ (sync_missing_phase sampleCloneResults sampleMissing).2 ∧
      ("other" ++ "/" ++ "tools") ∉ (sync_missing_phase sampleCloneResults sampleMissing).1) ∧
    (sync_missing_phase sampleCloneResults sampleMissing).1.length +
      (sync_missing_phase sampleCloneResults sampleMissing).2.length = sampleMissing.length :=
  claim_C8_theorem sampleCloneResults sampleMissing "other" "tools" sampleRepo
    (by decide) (by decide)

/-! ## String machinery for C10 -/

/-- A list is a Boolean-test prefix of itself followed by anything. -/
theorem isPrefixOf_append_self (s t : List Char) : s.isPrefixOf (s ++ t) = true :=
  List.isPrefixOf_iff_prefix.mpr ⟨t, rfl⟩

/-- A list is a Boolean-test suffix of anything followed by itself. -/
theorem isSuffixOf_append_self (s t : List Char) : t.isSuffixOf (s ++ t) = true :=
  List.isSuffixOf_iff_suffix.mpr ⟨s, rfl⟩

/-- `py_in` agrees with list-infix containment. -/
theorem py_in_iff (sub s : List Char) : py_in sub s = true ↔ sub <:+: s := by
  induction s with
  | nil => simp [py_in, List.isEmpty_iff]
  | cons c rest ih =>
    simp [py_in, ih, List.infix_cons_iff, List.isPrefixOf_iff_prefix, Bool.or_eq_true]

/-- A singleton infix means membership of its character. -/
theorem singleton_infix_mem (c : Char) (l : List Char) (h : [c] <:+: l) : c ∈ l := by
  obtain ⟨s, t, rfl⟩ := h
  simp

/-- A list containing a character absent from `l` is not an infix of `l`. -/
theorem not_infix_of_not_mem (c : Char) (sub l : List Char) (hc : c ∈ sub) (hl : c ∉ l) :
    ¬ sub <:+: l := by
  intro h
  obtain ⟨s, t, rfl⟩ := h
  exact hl (by simp [hc])

/-- `findSplit` returns `none` when the separator does not occur. -/
theorem findSplit_eq_none (sep : List Char) :
    ∀ s, ¬ sep <:+: s → findSplit sep s = none := by
  intro s
  induction s with
  | nil =>
    intro h
    have hne : sep.isEmpty ≠ true := by
      intro he
      have hsep : sep = [] := by simpa [List.isEmpty_iff] using he
      exact h (by simp [hsep])
    simp [findSplit, hne]
  | cons c rest ih =>
    intro h
    have h1 : sep.isPrefixOf (c :: rest) ≠ true := by
      intro hp
      exact h ( List.IsPrefix.isInfix ( List.isPrefixOf_iff_prefix.mp hp))
    have h2 : findSplit sep rest = none := ih (fun hi => h ( List.infix_cons hi))
    simp [findSplit, h1, h2]

/-- `findSplit` splits at an explicitly marked occurrence of the separator,
provided no earlier occurrence exists (no occurrence starts strictly inside
the leading block `a`). -/
theorem findSplit_first (sep : List Char) (hsep : sep ≠ []) :
    ∀ a b : List Char, ¬ sep <:+: (a ++ sep).dropLast →
      findSplit sep (a ++ (sep ++ b)) = some (a, b) := by
  obtain ⟨c0, sep', rfl⟩ : ∃ c0 sep', sep = c0 :: sep' := by
    cases sep with
    | nil => exact absurd rfl hsep
    | cons x xs => exact ⟨x, xs, rfl⟩
  intro a
  induction a with
  | nil =>
    intro b _
    rw [List.nil_append, List.cons_append]
    have hpre : (c0 :: sep').isPrefixOf (c0 :: (sep' ++ b)) = true := by
      have := isPrefixOf_append_self (c0 :: sep') b
      simpa [List.cons_append] using this
    simp only [findSplit, hpre, if_true]
    rw [← List.cons_append, List.drop_left]
  | cons x a' ih =>
    intro b hc
    rw [List.cons_append]
    have hnp : (c0 :: sep').isPrefixOf (x :: (a' ++ ((c0 :: sep') ++ b))) ≠ true := by
      intro hp
      apply hc
      have hpfx : (c0 :: sep') <+: (x :: (a' ++ ((c0 :: sep') ++ b))) :=
        List.isPrefixOf_iff_prefix.mp hp
      have hw : x :: (a' ++ ((c0 :: sep') ++ b)) = ((x :: a') ++ (c0 :: sep')) ++ b := by
        simp [List.cons_append, List.append_assoc]
      rw [hw] at hpfx
      have hne : (x :: a') ++ (c0 :: sep') ≠ [] := by simp
      have hsplit : (x :: a') ++ (c0 :: sep')
          = ((x :: a') ++ (c0 :: sep')).dropLast
            ++ [((x :: a') ++ (c0 :: sep')).getLast hne] :=
        ( List.dropLast_concat_getLast hne).symm
      have htake := List.prefix_iff_eq_take.mp hpfx
      rw [hsplit, List.append_assoc] at htake
      have hlen : (c0 :: sep').length ≤ ((x :: a') ++ (c0 :: sep')).dropLast.length := by
        simp [List.length_dropLast, List.length_append]
      rw [List.take_append_of_le_length hlen] at htake
      have hfin : (c0 :: sep') <+: ((x :: a') ++ (c0 :: sep')).dropLast := by
        have hp2 := List.take_prefix (c0 :: sep').length (((x :: a') ++ (c0 :: sep')).dropLast)
        rw [← htake] at hp2
        exact hp2
      exact List.IsPrefix.isInfix hfin
    have hrec : findSplit (c0 :: sep') (a' ++ ((c0 :: sep') ++ b)) = some (a', b) := by
      apply ih
      intro hi
      apply hc
      have hne2 : a' ++ (c0 :: sep') ≠ [] := by simp
      have hdl : ((x :: a') ++ (c0 :: sep')).dropLast
          = x :: (a' ++ (c0 :: sep')).dropLast := by
        rw [List.cons_append, List.dropLast_cons_of_ne_nil hne2]
      rw [hdl]
      exact List.infix_cons hi
    have hnotand : ¬ (c0 = x ∧ sep' <+: a' ++ c0 :: (sep' ++ b)) := by
      intro hand
      apply hnp
      rw [ List.isPrefixOf_iff_prefix]
      rw [show x :: (a' ++ ((c0 :: sep') ++ b)) = x :: (a' ++ c0 :: (sep' ++ b)) by
        simp [List.cons_append]]
      exact List.cons_prefix_cons.mpr hand
    have hrec2 : findSplit (c0 :: sep') (a' ++ c0 :: (sep' ++ b)) = some (a', b) := by
      rw [show a' ++ c0 :: (sep' ++ b) = a' ++ ((c0 :: sep') ++ b) by simp [List.cons_append]]
      exact hrec
    simp [findSplit, hnotand, hrec2]

/-- With a separator that does not occur, `splitLoop` keeps the text whole
regardless of fuel. -/
theorem splitLoop_eq_single (sep : List Char) (fuel : Nat) (s : List Char)
    (h : ¬ sep <:+: s) : splitLoop sep fuel s = [s] := by
  cases fuel with
  | zero => rfl
  | succ n => simp [splitLoop, findSplit_eq_none sep s h]

/-- Python split of text with no separator occurrence. -/
theorem splitOnSub_single (sep s : List Char) (h : ¬ sep <:+: s) : splitOnSub sep s = [s] :=
  splitLoop_eq_single sep _ s h

/-- Python split of `a ++ sep ++ b` when the marked occurrence is the first
and the only one. -/
theorem splitOnSub_pair (sep a b : List Char) (hsep : sep ≠ [])
    (hc : ¬ sep <:+: (a ++ sep).dropLast) (hb : ¬ sep <:+: b) :
    splitOnSub sep (a ++ (sep ++ b)) = [a, b] := by
  unfold splitOnSub
  have hfs := findSplit_first sep hsep a b hc
  have hstep : splitLoop sep ((a ++ (sep ++ b)).length + 1) (a ++ (sep ++ b))
      = a :: splitLoop sep ((a ++ (sep ++ b)).length) b := by
    simp [splitLoop, hfs]
  rw [hstep, splitLoop_eq_single sep _ b hb]

/-- Cutting two equal lists at a marker character that occurs in neither
leading part yields the same pieces. -/
theorem append_cons_inj (c : Char) :
    ∀ (A w t r : List Char), c ∉ A → c ∉ w →
      A ++ c :: t = w ++ c :: r → A = w ∧ t = r := by
  intro A
  induction A with
  | nil =>
    intro w t r _ hw h
    cases w with
    | nil =>
      simp only [List.nil_append] at h
      injection h with h1 h2
      exact ⟨rfl, h2⟩
    | cons y w' =>
      simp only [List.nil_append, List.cons_append] at h
      injection h with h1 h2
      exact absurd (by rw [h1]; exact List.mem_cons_self y w') hw
  | cons a A' ih =>
    intro w t r hA hw h
    cases w with
    | nil =>
      simp only [List.cons_append, List.nil_append] at h
      injection h with h1 h2
      exact absurd (by rw [← h1]; exact List.mem_cons_self a A') hA
    | cons y w' =>
      simp only [List.cons_append] at h
      injection h with h1 h2
      have hA' : c ∉ A' := fun hx => hA (List.mem_cons_of_mem a hx)
      have hw' : c ∉ w' := fun hx => hw (List.mem_cons_of_mem y hx)
      obtain ⟨e1, e2⟩ := ih w' t r hA' hw' h2
      exact ⟨by rw [h1, e1], e2⟩

/-- An occurrence of `github.com/` in a text with exactly one slash forces
`github.com` to be a suffix of the part before that slash. -/
theorem gh_infix_suffix (w r : List Char) (hw : '/' ∉ w) (hr : '/' ∉ r)
    (h : "github.com/".toList <:+: (w ++ '/' :: r)) : "github.com".toList <:+ w := by
  obtain ⟨s, t, hst⟩ := h
  have hsep : ("github.com/".toList : List Char) = "github.com".toList ++ ['/'] := by decide
  rw [hsep] at hst
  have hst2 : (s ++ "github.com".toList) ++ '/' :: t = w ++ '/' :: r := by
    simpa [List.append_assoc] using hst
  have hw0 : List.count '/' w = 0 := List.count_eq_zero.mpr hw
  have hr0 : List.count '/' r = 0 := List.count_eq_zero.mpr hr
  have hg0 : List.count '/' ("github.com".toList : List Char) = 0 := by decide
  have hcount : List.count '/' ((s ++ "github.com".toList) ++ '/' :: t)
      = List.count '/' (w ++ '/' :: r) := by rw [hst2]
  have hs0 : List.count '/' s = 0 := by
    simp [List.count_append, List.count_cons, hw0, hr0, hg0] at hcount
    omega
  have hnotin : '/' ∉ s ++ "github.com".toList := by
    intro hx
    rcases List.mem_append.mp hx with h1 | h1
    · exact (List.count_eq_zero.mp hs0) h1
    · exact absurd h1 (by decide)
  obtain ⟨hA, _⟩ := append_cons_inj '/' (s ++ "github.com".toList) w t r hnotin hw hst2
  exact ⟨s, hA⟩

/-- Stripping the `.git` tail, as the source does with `path[:-4]`. -/
theorem strip_git (x : List Char) :
    (if ".git".toList.isSuffixOf (x ++ ".git".toList) then
      (x ++ ".git".toList).take ((x ++ ".git".toList).length - 4)
    else x ++ ".git".toList) = x := by
  rw [if_pos (isSuffixOf_append_self x _)]
  have h4 : (".git".toList : List Char).length = 4 := by decide
  have hlen : x.length = (x ++ ".git".toList).length - 4 := by
    rw [List.length_append, h4]
    omega
  exact List.take_left' hlen

/-- Splitting `owner/repo` at the single slash. -/
theorem split_slash (owner repo : List Char) (h3 : '/' ∉ owner) (h4 : '/' ∉ repo) :
    splitOnSub "/".toList (owner ++ '/' :: repo) = [owner, repo] := by
  have hshape : owner ++ '/' :: repo = owner ++ (("/".toList : List Char) ++ repo) := rfl
  rw [hshape]
  refine splitOnSub_pair _ owner repo (by decide) ?_ ?_
  · have hdl : (owner ++ ("/".toList : List Char)).dropLast = owner := by
      rw [show ("/".toList : List Char) = ['/'] from rfl]
      exact List.dropLast_concat
    rw [hdl]
    exact not_infix_of_not_mem '/' _ owner (by decide) h3
  · exact not_infix_of_not_mem '/' _ repo (by decide) h4

/-- The SSH marker is not a prefix of an HTTPS URL. -/
theorem ssh_marker_not_pre (z : List Char) :
    "git@github.com:".toList.isPrefixOf ("https://".toList ++ z) = false := rfl

/-- Parsing the built SSH URL recovers the owner and the repository name. -/
theorem parse_build_ssh (owner repo : List Char) (h3 : '/' ∉ owner) (h4 : '/' ∉ repo) :
    parse_github_remote
        ("git@github.com:".toList ++ (owner ++ ('/' :: (repo ++ ".git".toList))))
      = some (owner, repo) := by
  simp only [parse_github_remote]
  rw [if_pos (isPrefixOf_append_self _ _)]
  have hdrop : ("git@github.com:".toList
        ++ (owner ++ ('/' :: (repo ++ ".git".toList)))).drop 15
      = owner ++ ('/' :: (repo ++ ".git".toList)) := by
    have h15 : ("git@github.com:".toList : List Char).length = 15 := by decide
    rw [← h15, List.drop_left]
  rw [hdrop]
  have hre : owner ++ ('/' :: (repo ++ ".git".toList))
      = (owner ++ '/' :: repo) ++ ".git".toList := by
    simp only [List.append_assoc]
    rfl
  rw [hre, strip_git, split_slash owner repo h3 h4]
  simp

/-- Parsing the built HTTPS URL recovers the owner and the repository name,
provided the owner does not end with `github.com`. -/
theorem parse_build_https (owner repo : List Char) (h3 : '/' ∉ owner) (h4 : '/' ∉ repo)
    (h5 : ¬ "github.com".toList <:+ owner) :
    parse_github_remote
        ("https://".toList ++ ("github.com/".toList
          ++ (owner ++ ('/' :: (repo ++ ".git".toList)))))
      = some (owner, repo) := by
  have hsl : '/' ∉ repo ++ ".git".toList := by
    intro hx
    rcases List.mem_append.mp hx with h | h
    · exact h4 h
    · exact absurd h (by decide)
  have hbni : ¬ "github.com/".toList <:+: (owner ++ ('/' :: (repo ++ ".git".toList))) := by
    intro hocc
    exact h5 (gh_infix_suffix owner (repo ++ ".git".toList) h3 hsl hocc)
  simp only [parse_github_remote]
  rw [if_neg (by rw [ssh_marker_not_pre]; exact Bool.false_ne_true)]
  simp only [parse_https_branch]
  have hin : py_in "github.com/".toList
      ("https://".toList ++ ("github.com/".toList
        ++ (owner ++ ('/' :: (repo ++ ".git".toList))))) = true := by
    rw [py_in_iff]
    exact ⟨"https://".toList, owner ++ ('/' :: (repo ++ ".git".toList)),
      by rw [List.append_assoc]⟩
  rw [if_pos hin]
  have hsplit : splitOnSub "github.com/".toList
      ("https://".toList ++ ("github.com/".toList
        ++ (owner ++ ('/' :: (repo ++ ".git".toList)))))
      = ["https://".toList, owner ++ ('/' :: (repo ++ ".git".toList))] :=
    splitOnSub_pair "github.com/".toList "https://".toList
      (owner ++ ('/' :: (repo ++ ".git".toList))) (by decide) (by decide) hbni
  rw [hsplit]
  simp only [List.getD_cons_succ, List.getD_cons_zero]
  have hre : owner ++ ('/' :: (repo ++ ".git".toList))
      = (owner ++ '/' :: repo) ++ ".git".toList := by
    simp only [List.append_assoc]
    rfl
  rw [hre, strip_git, split_slash owner repo h3 h4]
  simp

/-- C10 counterexample: owner `xgithub.com` and repository `app` satisfy
the claim's hypotheses (non-empty, no slash, protocol in {ssh, https}), yet
parsing the built HTTPS clone URL fails: the Python `split("github.com/")`
cuts inside the owner, so the round trip does not recover the inputs. -/
theorem claim_C10_counterexample :
    ("xgithub.com".toList ≠ ([] : List Char)) ∧ ("app".toList ≠ ([] : List Char)) ∧
    '/' ∉ "xgithub.com".toList ∧ '/' ∉ "app".toList ∧
    parse_github_remote (build_github_url "xgithub.com".toList "app".toList "https".toList)
      = none := by
  decide

/-- C10 (amended): for non-empty owner and repository names without a
slash, parsing the built clone URL recovers the inputs exactly for the ssh
protocol, and for the https protocol provided the owner does not end with
the text `github.com`. -/
theorem claim_C10_theorem (owner repo protocol : List Char)
    (h1 : owner ≠ []) (h2 : repo ≠ []) (h3 : '/' ∉ owner) (h4 : '/' ∉ repo)
    (h5 : protocol = "ssh".toList ∨
      (protocol = "https".toList ∧ ¬ "github.com".toList <:+ owner)) :
    parse_github_remote (build_github_url owner repo protocol) = some (owner, repo) := by
  rcases h5 with h5 | ⟨h5, h6⟩
  · subst h5
    unfold build_github_url
    rw [if_pos rfl]
    have hsh : "git@github.com:".toList ++ owner ++ "/".toList ++ repo ++ ".git".toList
        = "git@github.com:".toList ++ (owner ++ ('/' :: (repo ++ ".git".toList))) := by
      simp only [List.append_assoc]
      rfl
    rw [hsh]
    exact parse_build_ssh owner repo h3 h4
  · subst h5
    unfold build_github_url
    rw [if_neg (by decide : ¬ (("https".toList : List Char) = "ssh".toList))]
    have hsh : "https://github.com/".toList ++ owner ++ "/".toList ++ repo ++ ".git".toList
        = "https://".toList ++ ("github.com/".toList
          ++ (owner ++ ('/' :: (repo ++ ".git".toList)))) := by
      rw [show ("https://github.com/".toList : List Char)
          = "https://".toList ++ "github.com/".toList from by decide]
      simp only [List.append_assoc]
      rfl
    rw [hsh]
    exact parse_build_https owner repo h3 h4 h6

/-- C10 witness: the amended round trip at concrete inputs, ssh protocol. -/
theorem claim_C10_witness :
    parse_github_remote (build_github_url "acme".toList "app".toList "ssh".toList)
      = some ("acme".toList, "app".toList) :=
  claim_C10_theorem "acme".toList "app".toList "ssh".toList (by decide) (by decide)
    (by decide) (by decide) (Or.inl rfl)
